import Mathlib

/-!
Verification of the TopDecked → TCG PowerTools converter
(`topdecked_converter_app.py`) against its specification.

The pandas pipeline is shallowly embedded over lists:

* a DataFrame cell is `Option String` (`none` models a pandas `NaN`);
* a canonical row before quantity normalization is `CRow` (its `quantity`
  is the raw text cell), and after normalization it is `QRow` (its
  `quantity` is an integer);
* `pd.groupby(..., sort=True)` emits one row per distinct key in
  ascending key order; we compute the distinct keys with `dedupFirst`
  and sort them with an insertion sort (`sortLe`).  The key lists are
  duplicate-free, so every ascending sort yields the same list;
* string operations (`.strip()`, `.lower()`, Python string comparison)
  are defined over the character list of the string so that every
  definition evaluates by kernel reduction.
-/

/-- A pandas cell: `none` models `NaN` (a missing value). -/
abbrev Cell := Option String

/-- Characters stripped by Python `str.strip()` (whitespace). -/
def isWsChar (c : Char) : Bool := c.isWhitespace

/-- Drop matching characters from the end of a character list. -/
def dropWhileEnd (p : Char → Bool) (l : List Char) : List Char :=
  (l.reverse.dropWhile p).reverse

/-- Python `str.strip()`: remove whitespace from both ends. -/
def strStrip (s : String) : String :=
  String.mk (dropWhileEnd isWsChar (s.data.dropWhile isWsChar))

/-- ASCII lower-casing of one character (the names in scope are ASCII). -/
def lowerChar (c : Char) : Char :=
  if 'A' ≤ c ∧ c ≤ 'Z' then Char.ofNat (c.toNat + 32) else c

/-- Python `str.lower()` (ASCII model). -/
def strLower (s : String) : String := String.mk (s.data.map lowerChar)

/-- Lexicographic comparison of character lists by code point,
the order Python uses to compare strings. -/
def charsLe : List Char → List Char → Bool
  | [], _ => true
  | _ :: _, [] => false
  | a :: as, b :: bs => if a = b then charsLe as bs else decide (a < b)

/-- Python string `<=` (lexicographic by code point). -/
def strLe (a b : String) : Bool := charsLe a.data b.data

/-- Does the character list `n` start `h`? (helper for substring tests). -/
def charsStartWith : List Char → List Char → Bool
  | [], _ => true
  | _ :: _, [] => false
  | a :: as, b :: bs => a = b && charsStartWith as bs

/-- Python `n in h` on strings: `n` occurs contiguously in `h`. -/
def charsContain (n : List Char) : List Char → Bool
  | [] => n.isEmpty
  | b :: bs => charsStartWith n (b :: bs) || charsContain n bs

/-- Python substring test `needle in hay`. -/
def strContains (hay needle : String) : Bool := charsContain needle.data hay.data

/-- Keep the first occurrence of every element (`seen` accumulates
the elements already emitted). -/
def dedupFirst [DecidableEq α] (seen : List α) : List α → List α
  | [] => []
  | x :: xs =>
    if x ∈ seen then dedupFirst seen xs else x :: dedupFirst (x :: seen) xs

/-- Insert `x` into `l` before the first element it is `le`-below. -/
def insertLe (le : α → α → Bool) (x : α) : List α → List α
  | [] => [x]
  | y :: ys => if le x y then x :: y :: ys else y :: insertLe le x ys

/-- Insertion sort by the boolean relation `le`; on duplicate-free key
lists this is the ascending key order `pandas.groupby(sort=True)` uses. -/
def sortLe (le : α → α → Bool) : List α → List α
  | [] => []
  | x :: xs => insertLe le x (sortLe le xs)

/-- Natural value of a digit list (the list is all digits when used). -/
def digitsToNat (l : List Char) : Nat :=
  l.foldl (fun n c => n * 10 + (c.toNat - 48)) 0

/-- Integer-literal parsing model of `pd.to_numeric(errors="coerce")`:
optionally signed decimal digits after trimming whitespace; anything
else coerces to `none` (`NaN`).  The embedding models integer-valued
numeric text; the claims about quantities only use the parses
symbolically. -/
def parseIntText (s : String) : Option Int :=
  match (strStrip s).data with
  | [] => none
  | '-' :: ds =>
    if ds.isEmpty then none
    else if ds.all (fun c => c.isDigit) then some (-(digitsToNat ds : Int)) else none
  | '+' :: ds =>
    if ds.isEmpty then none
    else if ds.all (fun c => c.isDigit) then some (digitsToNat ds : Int) else none
  | ds =>
    if ds.all (fun c => c.isDigit) then some (digitsToNat ds : Int) else none

/-- Line 16 of the source, applied to one cell:
`pd.to_numeric(df["QUANTITY"], errors="coerce").fillna(0).astype(int)` —
unparseable or missing text becomes `0`. -/
def normalizeQuantity : Cell → Int
  | none => 0
  | some s => (parseIntText s).getD 0

/-- A canonical row as produced by the schema conversion functions:
all eight columns are raw cells. -/
structure CRow where
  quantity : Cell
  name : Cell
  setname : Cell
  setcode : Cell
  finish : Cell
  condition : Cell
  lang : Cell
  notes : Cell
deriving DecidableEq

/-- A canonical row after quantity normalization (line 16): the
`QUANTITY` column is an integer, the other columns are still cells. -/
structure QRow where
  quantity : Int
  name : Cell
  setname : Cell
  setcode : Cell
  finish : Cell
  condition : Cell
  lang : Cell
  notes : Cell
deriving DecidableEq

/-- The identity key of `consolidate_duplicates`:
`["NAME", "SETNAME", "SETCODE", "FINISH", "CONDITION", "LANG", "NOTES"]`. -/
structure RKey where
  name : Cell
  setname : Cell
  setcode : Cell
  finish : Cell
  condition : Cell
  lang : Cell
  notes : Cell
deriving DecidableEq

/-- Key of a normalized row. -/
def rowKey (r : QRow) : RKey :=
  ⟨r.name, r.setname, r.setcode, r.finish, r.condition, r.lang, r.notes⟩

/-- Rebuild the row of a group from its key and its summed quantity
(`groupby.agg` keeps the key columns and the aggregated quantity). -/
def keyRow (k : RKey) (q : Int) : QRow :=
  ⟨q, k.name, k.setname, k.setcode, k.finish, k.condition, k.lang, k.notes⟩

/-- Key columns as a list, for the lexicographic group-key order. -/
def keyList (k : RKey) : List Cell :=
  [k.name, k.setname, k.setcode, k.finish, k.condition, k.lang, k.notes]

/-- Order on cells used by `groupby(sort=True, dropna=False)`:
values ascending, `NaN` placed last. -/
def cellLe (a b : Cell) : Bool :=
  match a, b with
  | _, none => true
  | none, some _ => false
  | some x, some y => strLe x y

/-- Lexicographic order on cell lists (group keys). -/
def cellsLe : List Cell → List Cell → Bool
  | [], _ => true
  | _ :: _, [] => false
  | a :: as, b :: bs => if a = b then cellsLe as bs else cellLe a b

/-- Ascending order on identity keys. -/
def keyLe (k1 k2 : RKey) : Bool := cellsLe (keyList k1) (keyList k2)

/-- The distinct identity keys of `rows` in ascending order — the
iteration order of `groupby(group_cols, dropna=False, as_index=False)`. -/
def groupKeys (rows : List QRow) : List RKey :=
  sortLe keyLe (dedupFirst [] (rows.map rowKey))

/-- Line 17 of the source: group by the identity key and sum the
(already numeric) quantities; one output row per distinct key, in
ascending key order. -/
def groupSum (rows : List QRow) : List QRow :=
  (groupKeys rows).map fun k =>
    keyRow k (((rows.filter fun r => rowKey r == k).map QRow.quantity).sum)

/-- Line 16 of the source applied to one row: normalize the quantity
column, keep every other column. -/
def normalizeRow (r : CRow) : QRow :=
  ⟨normalizeQuantity r.quantity, r.name, r.setname, r.setcode,
   r.finish, r.condition, r.lang, r.notes⟩

/-- Model of `consolidate_duplicates` (lines 14–17): normalize the quantity
column, then group by the seven identity columns and sum quantities. -/
def consolidate_duplicates (rows : List CRow) : List QRow :=
  groupSum (rows.map normalizeRow)

/-- Line 20 of the source: the consolidation group key
`df["NAME"].str.lower().str.strip()`; a `NaN` name yields a `NaN` key. -/
def nameKey (r : QRow) : Option String := r.name.map fun s => strStrip (strLower s)

/-- The rows of one consolidation group, in their original order
(pandas `groupby` preserves row order inside each group). -/
def grpOf (rows : List QRow) (k : String) : List QRow :=
  rows.filter fun r => nameKey r == some k

/-- The distinct non-`NaN` set names of a group —
`group_df["SETNAME"].nunique()` counts this list. -/
def setsOf (grp : List QRow) : List String :=
  dedupFirst [] (grp.filterMap QRow.setname)

/-- Model of `group_df.groupby("SETNAME")["QUANTITY"].sum()` at one set name. -/
def setSum (grp : List QRow) (s : String) : Int :=
  ((grp.filter fun r => r.setname == some s).map QRow.quantity).sum

/-- Model of `group_df["QUANTITY"].sum()` — the total over the whole group. -/
def totalOf (grp : List QRow) : Int := (grp.map QRow.quantity).sum

/-- Scan for the first value attaining the maximum of `f`
(`best` is the current leader, `bestv = f best`). -/
def idxmaxGo (f : String → Int) (best : String) (bestv : Int) : List String → String
  | [] => best
  | y :: ys => if f y > bestv then idxmaxGo f y (f y) ys else idxmaxGo f best bestv ys

/-- Model of `Series.idxmax`: the first index label attaining the maximum.
The series produced by `groupby("SETNAME").sum()` is indexed by the
distinct set names in ascending order. -/
def idxmax (f : String → Int) : List String → Option String
  | [] => none
  | x :: xs => some (idxmaxGo f x (f x) xs)

/-- Characters removed by Python `.strip(" | ")` (a character set). -/
def isPipeSp (c : Char) : Bool := c = ' ' || c = '|'

/-- Python `str.strip(" | ")`: drop spaces and pipes from both ends. -/
def stripPipeSp (s : String) : String :=
  String.mk (dropWhileEnd isPipeSp (s.data.dropWhile isPipeSp))

/-- One iteration of the loop in `consolidate_sets` (lines 24–34) on the
rows of one name group.  When the group spans more than one (non-`NaN`)
set name, a single row is emitted: the first row of the group with the
total quantity, the winning set name, and the consolidation marker
appended to its notes.  A `NaN` notes cell makes line 31 raise a
`TypeError` (`nan + str`), modelled as `none`. -/
def consolidateGroup (grp : List QRow) : Option (List QRow) :=
  if (setsOf grp).length > 1 then
    match grp with
    | [] => some []
    | f :: _ =>
      match f.notes, idxmax (setSum grp) (sortLe strLe (setsOf grp)) with
      | some n, some w =>
        some [{ f with
                quantity := totalOf grp
                setname := some w
                notes := some (stripPipeSp (n ++ " | Sets consolidated")) }]
      | _, _ => none
  else some grp

/-- The distinct group keys in ascending order — the iteration order of
`df.groupby("GROUP_KEY")`; rows whose key is `NaN` are dropped by
pandas (default `dropna=True`). -/
def nameKeys (rows : List QRow) : List String :=
  sortLe strLe (dedupFirst [] (rows.filterMap nameKey))

/-- Concatenate the per-group results over the listed keys. -/
def consolidateAll (rows : List QRow) : List String → Option (List QRow)
  | [] => some []
  | k :: ks =>
    match consolidateGroup (grpOf rows k), consolidateAll rows ks with
    | some b, some rest => some (b ++ rest)
    | _, _ => none

/-- Model of `consolidate_sets` (lines 19–36): group the aggregated rows by
normalized name and consolidate each multi-set group onto one row. -/
def consolidate_sets (rows : List QRow) : Option (List QRow) :=
  consolidateAll rows (nameKeys rows)

/-- A Cardmarket catalog entry after the `dict.get` defaulting performed
by `build_id_lookup_table` (`name`, `idProduct`, `idExpansion`; numeric
JSON values are modelled by their string rendering). -/
structure CatalogEntry where
  name : String
  idProduct : String
  idExpansion : String
deriving DecidableEq

/-- The parsed JSON document of the local catalog file: a JSON object
(with or without a `products` array, whose items are dicts — `some` —
or non-dicts — `none`) or a bare JSON array. -/
inductive JsonDoc
  | obj (products : Option (List (Option CatalogEntry)))
  | arr (items : List (Option CatalogEntry))
deriving DecidableEq

/-- A failure while opening or parsing the catalog file. -/
inductive LoadErr
  | ioError
  | jsonError
deriving DecidableEq

/-- Model of `load_cardmarket_mapping` (lines 38–46): any exception while
opening or parsing degrades to `[]`; `data.get("products", [])` on a
dict misses to `[]`; on a bare array `.get` raises `AttributeError`
inside the `try`, which is also caught and degrades to `[]`. -/
def load_cardmarket_mapping : Except LoadErr JsonDoc → List (Option CatalogEntry)
  | .error _ => []
  | .ok (.obj ps) => ps.getD []
  | .ok (.arr _) => []

/-- Append a value to the bucket of `k`, creating the bucket at the end
on first use (insertion order of a Python dict). -/
def addEntry (k : String) (v : String × String) :
    List (String × List (String × String)) → List (String × List (String × String))
  | [] => [(k, [v])]
  | (k', vs) :: rest =>
    if k' = k then (k, vs ++ [v]) :: rest else (k', vs) :: addEntry k v rest

/-- First-match association lookup (Python `dict` access on distinct
keys, which `addEntry` maintains). -/
def lookupAssoc (l : List (String × List (String × String))) (k : String) :
    Option (List (String × String)) :=
  (l.find? fun p => p.1 == k).map Prod.snd

/-- Model of `build_id_lookup_table` (lines 48–59): index the catalog by
stripped-lowercased name; non-dict entries and empty names are
skipped; each bucket lists `(idProduct, idExpansion)` pairs in catalog
order. -/
def build_id_lookup_table (raw : List (Option CatalogEntry)) :
    List (String × List (String × String)) :=
  raw.foldl
    (fun acc e =>
      match e with
      | none => acc
      | some entry =>
        let k := strLower (strStrip entry.name)
        if k = "" then acc else addEntry k (entry.idProduct, entry.idExpansion) acc)
    []

/-- A Python runtime error raised inside the resolver. -/
inductive PyErr
  | attributeError
deriving DecidableEq

/-- Model of `get_cardmarket_id` (lines 61–71).  The callers pass raw cells
(`row["NAME"]`, `row["SETNAME"]`); a `NaN` name raises
`AttributeError` at `name.strip()`; a `NaN` set name is truthy in
Python, so when the name has matches it raises at `setname.strip()`.
With no matches the function returns `""` before touching `setname`. -/
def get_cardmarket_id (name setname : Cell)
    (lookup : List (String × List (String × String))) : Except PyErr String :=
  match name with
  | none => .error .attributeError
  | some n =>
    match lookupAssoc lookup (strLower (strStrip n)) with
    | none => .ok ""
    | some [] => .ok ""
    | some (m :: rest) =>
      match setname with
      | none => .error .attributeError
      | some sn =>
        if sn = "" then .ok m.1
        else
          let snKey := strLower (strStrip sn)
          match (m :: rest).find? fun mt => strContains (strLower mt.2) snKey with
          | some mt => .ok mt.1
          | none => .ok m.1

/-- A transport failure or malformed body raised by `requests.get` or
`response.json()` — an exception in Python. -/
inductive NetErr
  | connectionError
  | parseError
deriving DecidableEq

/-- One entry of the Scryfall set directory. -/
structure SetInfo where
  name : String
  code : String
deriving DecidableEq

/-- The remote endpoints as the per-row strategy sees them: each GET
either raises (`Except.error`) or returns a status code with the
parsed body. -/
structure ScryfallEnv where
  setsResponse : Except NetErr (Nat × List SetInfo)
  cardResponse : String → String → Except NetErr (Nat × Option String)

/-- Last-match lookup: a Python dict comprehension keeps the last
binding of a repeated key. -/
def dictGetLast (l : List (String × String)) (k : String) : Option String :=
  ((l.filter fun p => p.1 == k).getLast?).map Prod.snd

/-- Model of `fetch_scryfall_sets` (lines 73–80): on HTTP 200 the name→code
dictionary (names lowercased), on any other status `{}`; an exception
from `requests.get`/`response.json()` propagates. -/
def fetch_scryfall_sets (env : ScryfallEnv) :
    Except NetErr (List (String × String)) :=
  match env.setsResponse with
  | .error e => .error e
  | .ok (status, data) =>
    if status = 200 then .ok (data.map fun s => (strLower s.name, s.code)) else .ok []

/-- Model of `get_scryfall_id` (lines 82–92): resolve the set name to a code via
the set directory, then query the exact-card endpoint; an unknown or
empty set code short-circuits to `""`; a non-200 card response yields
`""`; exceptions propagate. -/
def get_scryfall_id (env : ScryfallEnv) (name setname : String) :
    Except NetErr String :=
  match fetch_scryfall_sets env with
  | .error e => .error e
  | .ok sets =>
    match dictGetLast sets (strLower (strStrip setname)) with
    | none => .ok ""
    | some code =>
      if code = "" then .ok ""
      else
        match env.cardResponse (strStrip name) code with
        | .error e => .error e
        | .ok (status, idField) =>
          if status = 200 then .ok (idField.getD "") else .ok ""

/-- One output row of the destination schema (fixed 12 columns). -/
structure OutRow where
  idProduct : String
  quantity : Int
  name : Cell
  set : Cell
  condition : String
  language : String
  isFoil : Bool
  isPlayset : String
  isSigned : String
  isFirstEd : String
  price : String
  comment : String
deriving DecidableEq

/-- Model of `convert_to_tcgpowertools_format` (lines 127–148) applied to one
row.  `fillna` replaces only `NaN`; `set` is a plain copy of
`SETNAME`; `isFoil` is `.str.lower().eq("foil")` (`NaN` compares
false); the reserved columns are emitted empty. -/
def formatRow (dc dl : String) (idp : String) (r : QRow) : OutRow :=
  { idProduct := idp
    quantity := r.quantity
    name := r.name
    set := r.setname
    condition := r.condition.getD dc
    language := r.lang.getD dl
    isFoil := match r.finish with
      | none => false
      | some s => strLower s == "foil"
    isPlayset := ""
    isSigned := ""
    isFirstEd := ""
    price := ""
    comment := r.notes.getD "" }

/-- Model of `convert_to_tcgpowertools_format` over the whole table; `fetch`
models the selected identifier strategy (`none` when fetching is
disabled, in which case `idProduct` is the empty string). -/
def convert_to_tcgpowertools_format (rows : List QRow) (dc dl : String)
    (fetch : Option (QRow → String)) : List OutRow :=
  rows.map fun r =>
    formatRow dc dl (match fetch with | none => "" | some f => f r) r

/-- A raw CSV table as pandas reads it: named columns in order, each a
list of cells. -/
abbrev Table := List (String × List Cell)

/-- Model of `df.drop(columns=names, errors="ignore")`: remove the columns whose
exact label is listed. -/
def dropColumns (names : List String) (t : Table) : Table :=
  t.filter fun c => !(names.contains c.1)

/-- Model of `df.rename(columns={df.columns[0]: "idProduct"})` — renames every
column carrying the first column's label; on an empty table
`df.columns[0]` raises `IndexError`. -/
def renameFirstToIdProduct (t : Table) : Except String Table :=
  match t with
  | [] => .error "single positional indexer is out-of-bounds"
  | (f, cs) :: rest =>
    .ok (((f, cs) :: rest).map fun c => if c.1 = f then ("idProduct", c.2) else c)

/-- Model of `df.columns.str.strip().str.lower()` (line 95). -/
def lowerStripHeaders (t : Table) : Table :=
  t.map fun c => (strLower (strStrip c.1), c.2)

/-- Number of rows of the table (length of its first column). -/
def nRows (t : Table) : Nat :=
  match t with
  | [] => 0
  | c :: _ => c.2.length

/-- Column access `df[col]` (first column with the label). -/
def getCol (t : Table) (name : String) : Option (List Cell) :=
  (t.find? fun c => c.1 == name).map Prod.snd

/-- Model of `get_column` (lines 101–102): the column when present, otherwise
the scalar `""` broadcast over the rows. -/
def get_column (t : Table) (name : String) : List Cell :=
  (getCol t name).getD (List.replicate (nRows t) (some ""))

/-- The error message of the required-column check (line 99). -/
def missingMsg (col : String) : String :=
  "Missing required column " ++ [Char.ofNat 39].asString ++ col ++
    [Char.ofNat 39].asString ++ " in TCG ImportErrors format."

/-- The foil mapping of line 109: `str(x).strip().lower()` among
`"true"/"yes"/"foil"` maps to `"Foil"`, anything else (including
`NaN`, whose `str()` is `"nan"`) to `""`. -/
def foilCell (x : Cell) : Cell :=
  match x with
  | none => some ""
  | some s =>
    if ["true", "yes", "foil"].contains (strLower (strStrip s))
    then some "Foil" else some ""

/-- The normalized header list `df.columns` after line 95. -/
def lowHeaders (t : Table) : List String :=
  (lowerStripHeaders t).map Prod.fst

/-- Model of `convert_error_format` (lines 94–114): normalize the headers,
require `quantity` and `name` (first missing one raises), then build
the canonical eight columns. -/
def convert_error_format (t : Table) : Except String Table :=
  if !((lowHeaders t).contains "quantity") then .error (missingMsg "quantity")
  else if !((lowHeaders t).contains "name") then .error (missingMsg "name")
  else
    .ok [("QUANTITY", (getCol (lowerStripHeaders t) "quantity").getD []),
         ("NAME", (getCol (lowerStripHeaders t) "name").getD []),
         ("SETNAME", get_column (lowerStripHeaders t) "expansion"),
         ("SETCODE", List.replicate (nRows (lowerStripHeaders t)) (some "")),
         ("FINISH", (get_column (lowerStripHeaders t) "foil").map foilCell),
         ("CONDITION", get_column (lowerStripHeaders t) "condition"),
         ("LANG", get_column (lowerStripHeaders t) "language"),
         ("NOTES", get_column (lowerStripHeaders t) "comment")]

/-- The ImportErrors branch of the Convert handler (lines 172–175):
drop the `error` column, rename the first remaining column to
`idProduct`, then convert. -/
def errorsPipeline (t : Table) : Except String Table :=
  match renameFirstToIdProduct (dropColumns ["error"] t) with
  | .error e => .error e
  | .ok t2 => convert_error_format t2

theorem charsLe_total : ∀ a b : List Char, charsLe a b || charsLe b a := by
  intro a
  induction a with
  | nil => intro b; simp [charsLe]
  | cons x xs ih =>
    intro b
    cases b with
    | nil => simp [charsLe]
    | cons y ys =>
      by_cases h : x = y
      · subst h
        simpa [charsLe] using ih ys
      · rcases lt_or_gt_of_ne h with hlt | hgt
        · simp [charsLe, h, hlt]
        · simp [charsLe, h, Ne.symm h, hgt, le_of_lt hgt]

theorem charsLe_trans : ∀ a b c : List Char,
    charsLe a b = true → charsLe b c = true → charsLe a c = true := by
  intro a
  induction a with
  | nil => intro b c _ _; simp [charsLe]
  | cons x xs ih =>
    intro b c hab hbc
    cases b with
    | nil => simp [charsLe] at hab
    | cons y ys =>
      cases c with
      | nil => simp [charsLe] at hbc
      | cons z zs =>
        by_cases hxy : x = y
        · subst hxy
          by_cases hyz : x = z
          · subst hyz
            simp only [charsLe, if_pos rfl] at hab hbc ⊢
            exact ih ys zs hab hbc
          · simp only [charsLe, if_pos rfl] at hab
            simpa [charsLe, hyz] using hbc
        · by_cases hyz : y = z
          · subst hyz
            simpa [charsLe, hxy] using hab
          · simp only [charsLe, if_neg hxy, if_neg hyz, decide_eq_true_eq] at hab hbc
            have hxz : x < z := lt_trans hab hbc
            simp [charsLe, ne_of_lt hxz, hxz]

theorem strLe_total (a b : String) : strLe a b || strLe b a := charsLe_total a.data b.data

theorem strLe_trans {a b c : String} (h1 : strLe a b = true) (h2 : strLe b c = true) :
    strLe a c = true := charsLe_trans a.data b.data c.data h1 h2

theorem cellLe_total (a b : Cell) : cellLe a b || cellLe b a := by
  cases a with
  | none => cases b <;> simp [cellLe]
  | some x =>
    cases b with
    | none => simp [cellLe]
    | some y => simpa [cellLe] using strLe_total x y

theorem cellsLe_total : ∀ a b : List Cell, cellsLe a b || cellsLe b a := by
  intro a
  induction a with
  | nil => intro b; simp [cellsLe]
  | cons x xs ih =>
    intro b
    cases b with
    | nil => simp [cellsLe]
    | cons y ys =>
      by_cases h : x = y
      · subst h
        simpa [cellsLe] using ih ys
      · simp only [cellsLe, if_neg h, if_neg (Ne.symm h)]
        exact cellLe_total x y

theorem keyLe_total (a b : RKey) : keyLe a b || keyLe b a := cellsLe_total (keyList a) (keyList b)

theorem insertLe_perm (le : α → α → Bool) (x : α) :
    ∀ l : List α, (insertLe le x l).Perm (x :: l) := by
  intro l
  induction l with
  | nil => simp [insertLe]
  | cons y ys ih =>
    by_cases h : le x y
    · simp [insertLe, h]
    · simp only [insertLe, h, Bool.false_eq_true, if_false]
      exact (ih.cons y).trans (List.Perm.swap x y ys)

theorem sortLe_perm (le : α → α → Bool) : ∀ l : List α, (sortLe le l).Perm l := by
  intro l
  induction l with
  | nil => simp [sortLe]
  | cons x xs ih =>
    exact (insertLe_perm le x (sortLe le xs)).trans (ih.cons x)

theorem mem_dedupFirst [DecidableEq α] :
    ∀ (l seen : List α) (a : α), a ∈ dedupFirst seen l ↔ a ∈ l ∧ a ∉ seen := by
  intro l
  induction l with
  | nil => intro seen a; simp [dedupFirst]
  | cons x xs ih =>
    intro seen a
    by_cases hx : x ∈ seen
    · simp only [dedupFirst, if_pos hx]
      rw [ih seen a]
      constructor
      · rintro ⟨h1, h2⟩; exact ⟨.tail _ h1, h2⟩
      · rintro ⟨h1, h2⟩
        cases h1 with
        | head => exact absurd hx h2
        | tail _ h => exact ⟨h, h2⟩
    · simp only [dedupFirst, if_neg hx, List.mem_cons]
      rw [ih (x :: seen) a]
      constructor
      · rintro (rfl | ⟨h1, h2⟩)
        · exact ⟨Or.inl rfl, hx⟩
        · exact ⟨Or.inr h1, fun hs => h2 (List.mem_cons_of_mem x hs)⟩
      · rintro ⟨h1 | h1, h2⟩
        · exact Or.inl h1
        · by_cases hax : a = x
          · exact Or.inl hax
          · refine Or.inr ⟨h1, fun hs => ?_⟩
            rcases List.mem_cons.1 hs with h | h
            · exact hax h
            · exact h2 h

theorem nodup_dedupFirst [DecidableEq α] :
    ∀ (l seen : List α), (dedupFirst seen l).Nodup := by
  intro l
  induction l with
  | nil => intro seen; simp [dedupFirst]
  | cons x xs ih =>
    intro seen
    by_cases hx : x ∈ seen
    · simpa [dedupFirst, if_pos hx] using ih seen
    · simp only [dedupFirst, if_neg hx]
      refine List.Nodup.cons (fun hmem => ?_) (ih (x :: seen))
      exact ((mem_dedupFirst xs (x :: seen) x).1 hmem).2 (.head _)

theorem dedupFirst_eq_self [DecidableEq α] :
    ∀ (l seen : List α), l.Nodup → (∀ a ∈ l, a ∉ seen) → dedupFirst seen l = l := by
  intro l
  induction l with
  | nil => intro seen _ _; rfl
  | cons x xs ih =>
    intro seen hnd hs
    have hx : x ∉ seen := hs x (.head _)
    simp only [dedupFirst, if_neg hx]
    congr 1
    refine ih (x :: seen) hnd.of_cons fun a ha hmem => ?_
    cases hmem with
    | head => exact (List.nodup_cons.1 hnd).1 ha
    | tail _ h => exact hs a (.tail _ ha) h

theorem charsLe_antisymm : ∀ a b : List Char,
    charsLe a b = true → charsLe b a = true → a = b := by
  intro a
  induction a with
  | nil =>
    intro b _ hba
    cases b with
    | nil => rfl
    | cons y ys => simp [charsLe] at hba
  | cons x xs ih =>
    intro b hab hba
    cases b with
    | nil => simp [charsLe] at hab
    | cons y ys =>
      by_cases hxy : x = y
      · subst hxy
        simp only [charsLe, if_pos rfl] at hab hba
        rw [ih ys hab hba]
      · simp only [charsLe, if_neg hxy, if_neg (Ne.symm hxy), decide_eq_true_eq] at hab hba
        exact absurd hba (lt_asymm hab)

theorem strLe_antisymm {a b : String} (h1 : strLe a b = true) (h2 : strLe b a = true) :
    a = b := by
  cases a with
  | mk da =>
    cases b with
    | mk db => exact congrArg String.mk (charsLe_antisymm da db h1 h2)

theorem cellLe_trans {a b c : Cell} (h1 : cellLe a b = true) (h2 : cellLe b c = true) :
    cellLe a c = true := by
  cases a with
  | none =>
    cases c with
    | none => rfl
    | some z =>
      cases b with
      | none => simp [cellLe] at h2
      | some y => simp [cellLe] at h1
  | some x =>
    cases c with
    | none => rfl
    | some z =>
      cases b with
      | none => simp [cellLe] at h2
      | some y => exact strLe_trans h1 h2

theorem cellsLe_trans : ∀ a b c : List Cell,
    cellsLe a b = true → cellsLe b c = true → cellsLe a c = true := by
  intro a
  induction a with
  | nil => intro b c _ _; simp [cellsLe]
  | cons x xs ih =>
    intro b c hab hbc
    cases b with
    | nil => simp [cellsLe] at hab
    | cons y ys =>
      cases c with
      | nil => simp [cellsLe] at hbc
      | cons z zs =>
        by_cases hxy : x = y
        · subst hxy
          by_cases hyz : x = z
          · subst hyz
            simp only [cellsLe, if_pos rfl] at hab hbc ⊢
            exact ih ys zs hab hbc
          · simp only [cellsLe, if_pos rfl] at hab
            simpa [cellsLe, hyz] using hbc
        · by_cases hyz : y = z
          · subst hyz
            simpa [cellsLe, hxy] using hab
          · simp only [cellsLe, if_neg hxy, if_neg hyz] at hab hbc
            by_cases hxz : x = z
            · subst hxz
              rcases x with _ | sx <;> rcases y with _ | sy
              · exact absurd rfl hxy
              · simp [cellLe] at hab
              · simp [cellLe] at hbc
              · have hxy' : strLe sx sy = true := by simpa [cellLe] using hab
                have hyx' : strLe sy sx = true := by simpa [cellLe] using hbc
                exact absurd (congrArg Option.some (strLe_antisymm hxy' hyx')) hxy
            · simpa [cellsLe, hxz] using cellLe_trans hab hbc

theorem keyLe_trans {a b c : RKey} (h1 : keyLe a b = true) (h2 : keyLe b c = true) :
    keyLe a c = true := cellsLe_trans (keyList a) (keyList b) (keyList c) h1 h2

theorem sorted_insertLe (le : α → α → Bool) (htot : ∀ a b, le a b || le b a)
    (htrans : ∀ a b c, le a b = true → le b c = true → le a c = true) (x : α) :
    ∀ l : List α, l.Pairwise (fun a b => le a b = true) →
      (insertLe le x l).Pairwise (fun a b => le a b = true) := by
  intro l
  induction l with
  | nil => intro _; simp [insertLe]
  | cons y ys ih =>
    intro hp
    by_cases h : le x y
    · simp only [insertLe, if_pos h]
      refine List.Pairwise.cons (fun z hz => ?_) hp
      cases hz with
      | head => exact h
      | tail _ hz' => exact htrans x y z h ((List.pairwise_cons.1 hp).1 z hz')
    · simp only [insertLe, if_neg h]
      have hyx : le y x := by
        have := htot x y
        simp [h] at this
        exact this
      refine List.Pairwise.cons (fun z hz => ?_) (ih (List.pairwise_cons.1 hp).2)
      have hmem := (insertLe_perm le x ys).mem_iff.1 hz
      cases hmem with
      | head => exact hyx
      | tail _ hz' => exact (List.pairwise_cons.1 hp).1 z hz'

theorem sorted_sortLe (le : α → α → Bool) (htot : ∀ a b, le a b || le b a)
    (htrans : ∀ a b c, le a b = true → le b c = true → le a c = true) :
    ∀ l : List α, (sortLe le l).Pairwise (fun a b => le a b = true) := by
  intro l
  induction l with
  | nil => simp [sortLe]
  | cons x xs ih => exact sorted_insertLe le htot htrans x (sortLe le xs) ih

theorem sortLe_of_sorted (le : α → α → Bool) :
    ∀ l : List α, l.Pairwise (fun a b => le a b = true) → sortLe le l = l := by
  intro l
  induction l with
  | nil => intro _; rfl
  | cons x xs ih =>
    intro hp
    have hxs := ih (List.pairwise_cons.1 hp).2
    simp only [sortLe, hxs]
    cases xs with
    | nil => rfl
    | cons y ys =>
      have hxy : le x y = true := (List.pairwise_cons.1 hp).1 y (.head _)
      simp [insertLe, hxy]

theorem sum_map_add2 (l : List α) (g h : α → Int) :
    (l.map fun k => g k + h k).sum = (l.map g).sum + (l.map h).sum := by
  induction l with
  | nil => simp
  | cons x xs ih => simp [ih]; ring

theorem sum_ite_key [DecidableEq κ] (c : Int) :
    ∀ (keys : List κ) (k : κ), keys.Nodup → k ∈ keys →
      (keys.map fun j => if k = j then c else 0).sum = c := by
  intro keys
  induction keys with
  | nil => intro k _ hk; cases hk
  | cons x xs ih =>
    intro k hnd hk
    rcases List.mem_cons.1 hk with rfl | hk'
    · have hzero : (xs.map fun j => if k = j then c else 0).sum = 0 := by
        have hz : ∀ j ∈ xs, (if k = j then c else 0) = 0 := fun j hj => by
          have hne : k ≠ j := fun hkj => (List.nodup_cons.1 hnd).1 (hkj ▸ hj)
          simp [hne]
        rw [List.map_congr_left hz]
        simp
      simp [hzero]
    · have hne : k ≠ x := fun hkx => (List.nodup_cons.1 hnd).1 (hkx ▸ hk')
      simp only [List.map_cons, List.sum_cons, if_neg hne]
      rw [ih k (List.nodup_cons.1 hnd).2 hk']
      simp

theorem sum_filter_partition [DecidableEq κ] (keyf : α → κ) (f : α → Int) :
    ∀ (rows : List α) (keys : List κ), keys.Nodup → (∀ r ∈ rows, keyf r ∈ keys) →
      (keys.map fun k => ((rows.filter fun r => keyf r == k).map f).sum).sum
        = (rows.map f).sum := by
  intro rows
  induction rows with
  | nil =>
    intro keys _ _
    simp
  | cons r rs ih =>
    intro keys hnd hcov
    have hsplit : ∀ k : κ,
        (((r :: rs).filter fun r' => keyf r' == k).map f).sum
          = (if keyf r = k then f r else 0)
            + ((rs.filter fun r' => keyf r' == k).map f).sum := by
      intro k
      rw [List.filter_cons]
      by_cases h : keyf r = k
      · simp [h]
      · simp [h]
    rw [List.map_congr_left fun k _ => hsplit k, sum_map_add2]
    rw [ih keys hnd fun r' hr' => hcov r' (.tail _ hr')]
    rw [sum_ite_key (f r) keys (keyf r) hnd (hcov r (.head _))]
    simp

theorem nodup_groupKeys (rows : List QRow) : (groupKeys rows).Nodup :=
  ((sortLe_perm keyLe (dedupFirst [] (rows.map rowKey))).nodup_iff).2
    (nodup_dedupFirst (rows.map rowKey) [])

theorem sorted_groupKeys (rows : List QRow) :
    (groupKeys rows).Pairwise fun a b => keyLe a b = true :=
  sorted_sortLe keyLe keyLe_total (fun _ _ _ h1 h2 => keyLe_trans h1 h2)
    (dedupFirst [] (rows.map rowKey))

theorem rowKey_keyRow (k : RKey) (q : Int) : rowKey (keyRow k q) = k := rfl

theorem groupSum_eq_mapS (rows : List QRow) :
    groupSum rows = (groupKeys rows).map fun k =>
      keyRow k (((rows.filter fun r => rowKey r == k).map QRow.quantity).sum) := rfl

theorem groupSum_quantity_sum (rows : List QRow) :
    ((groupSum rows).map QRow.quantity).sum = (rows.map QRow.quantity).sum := by
  rw [groupSum_eq_mapS, List.map_map]
  have hperm := (sortLe_perm keyLe (dedupFirst [] (rows.map rowKey))).map
      fun k => ((rows.filter fun r => rowKey r == k).map QRow.quantity).sum
  have hmain := sum_filter_partition rowKey QRow.quantity rows
      (dedupFirst [] (rows.map rowKey)) (nodup_dedupFirst (rows.map rowKey) [])
      (fun r hr => (mem_dedupFirst (rows.map rowKey) [] (rowKey r)).2
        ⟨List.mem_map_of_mem rowKey hr, by simp⟩)
  calc ((groupKeys rows).map
          ((fun k => ((rows.filter fun r => rowKey r == k).map QRow.quantity).sum))).sum
      = ((dedupFirst [] (rows.map rowKey)).map
          fun k => ((rows.filter fun r => rowKey r == k).map QRow.quantity).sum).sum :=
        hperm.sum_eq
    _ = (rows.map QRow.quantity).sum := hmain

/-- C1: the sum of the Duplicate Aggregator's output quantities equals
the sum of the input quantities, each input quantity valued by the
coercion that sends unparseable (and missing) text to 0. -/
theorem c1_aggregator_preserves_quantity_sum (rows : List CRow) :
    ((consolidate_duplicates rows).map QRow.quantity).sum
      = (rows.map fun r => normalizeQuantity r.quantity).sum := by
  unfold consolidate_duplicates
  rw [groupSum_quantity_sum, List.map_map]
  rfl

/-- C8 counterexample: a quantity cell holding the numeric text `"-3"`
normalizes to the negative integer `-3`, so the aggregator's output
quantity is negative. -/
theorem c8_counterexample_negative_quantity :
    (consolidate_duplicates
        [⟨some "-3", some "Bolt", none, none, none, none, none, none⟩]).map QRow.quantity
      = [-3] ∧ ¬ (0 : Int) ≤ -3 := by decide

/-- C8 amended: after quantity normalization every row quantity is an
integer, and it is non-negative provided every input quantity cell
normalizes to a non-negative value (unparseable and missing cells
normalize to 0); negative numeric text yields negative quantities. -/
theorem c8_amended_nonnegative_quantities (rows : List CRow)
    (h : ∀ r ∈ rows, 0 ≤ normalizeQuantity r.quantity) :
    ∀ q ∈ consolidate_duplicates rows, 0 ≤ q.quantity := by
  intro q hq
  rw [consolidate_duplicates, groupSum_eq_mapS] at hq
  rcases List.mem_map.1 hq with ⟨k, _, rfl⟩
  refine List.sum_nonneg ?_
  intro x hx
  rcases List.mem_map.1 hx with ⟨r, hr, rfl⟩
  rcases List.mem_map.1 (List.mem_filter.1 hr).1 with ⟨r0, hr0, rfl⟩
  exact h r0 hr0

theorem c8_amended_nonnegative_quantities_witness :
    (∀ r ∈ [(⟨some "2", some "Bolt", none, none, none, none, none, none⟩ : CRow)],
        0 ≤ normalizeQuantity r.quantity) ∧
      ∀ q ∈ consolidate_duplicates
          [(⟨some "2", some "Bolt", none, none, none, none, none, none⟩ : CRow)],
        0 ≤ q.quantity :=
  ⟨by decide, c8_amended_nonnegative_quantities _ (by decide)⟩

theorem groupKeys_map_keyRow (S : RKey → Int) (ks : List RKey) (hnd : ks.Nodup)
    (hs : ks.Pairwise fun a b => keyLe a b = true) :
    groupKeys (ks.map fun k => keyRow k (S k)) = ks := by
  unfold groupKeys
  have hmap : (ks.map fun k => keyRow k (S k)).map rowKey = ks := by
    rw [List.map_map]
    have : ∀ k ∈ ks, (rowKey ∘ fun j => keyRow j (S j)) k = k := fun k _ => rfl
    rw [List.map_congr_left this]
    simp
  rw [hmap, dedupFirst_eq_self ks [] hnd (by simp), sortLe_of_sorted keyLe ks hs]

theorem filter_keyRow_map (S : RKey → Int) :
    ∀ ks : List RKey, ks.Nodup → ∀ k ∈ ks,
      ((ks.map fun j => keyRow j (S j)).filter fun r => rowKey r == k)
        = [keyRow k (S k)] := by
  intro ks
  induction ks with
  | nil => intro _ k hk; cases hk
  | cons x xs ih =>
    intro hnd k hk
    simp only [List.map_cons, List.filter_cons]
    rcases List.mem_cons.1 hk with rfl | hk'
    · have hcond : (rowKey (keyRow k (S k)) == k) = true := by
        rw [rowKey_keyRow]; exact beq_self_eq_true k
      rw [if_pos hcond]
      have hnil : ((xs.map fun j => keyRow j (S j)).filter fun r => rowKey r == k) = [] := by
        rw [List.filter_eq_nil_iff]
        intro a ha
        rcases List.mem_map.1 ha with ⟨j, hj, rfl⟩
        rw [rowKey_keyRow]
        have : j ≠ k := fun hjk => (List.nodup_cons.1 hnd).1 (hjk ▸ hj)
        simp [this]
      rw [hnil]
    · have hx : x ≠ k := fun hxk => (List.nodup_cons.1 hnd).1 (hxk ▸ hk')
      have hcond : (rowKey (keyRow x (S x)) == k) = false := by
        rw [rowKey_keyRow]; simp [hx]
      rw [hcond]
      simp only [Bool.false_eq_true, if_false]
      exact ih (List.nodup_cons.1 hnd).2 k hk'

theorem groupSum_grouped (S : RKey → Int) (ks : List RKey) (hnd : ks.Nodup)
    (hs : ks.Pairwise fun a b => keyLe a b = true) :
    groupSum (ks.map fun k => keyRow k (S k)) = ks.map fun k => keyRow k (S k) := by
  rw [groupSum_eq_mapS, groupKeys_map_keyRow S ks hnd hs]
  apply List.map_congr_left
  intro k hk
  rw [filter_keyRow_map S ks hnd k hk]
  simp [keyRow]

theorem groupSum_idem (rows : List QRow) : groupSum (groupSum rows) = groupSum rows :=
  groupSum_grouped
    (fun k => ((rows.filter fun r => rowKey r == k).map QRow.quantity).sum)
    (groupKeys rows) (nodup_groupKeys rows) (sorted_groupKeys rows)

/-- C9: the Duplicate Aggregator is idempotent.  Re-running
`consolidate_duplicates` on its own output re-applies the grouping and
summing step to the grouped table (the quantity column of the output is
already integral, so `pd.to_numeric(...).fillna(0).astype(int)` is the
identity on it) and returns the same table. -/
theorem c9_aggregator_idempotent (rows : List CRow) :
    groupSum (consolidate_duplicates rows) = consolidate_duplicates rows :=
  groupSum_idem (rows.map normalizeRow)

theorem charsLe_refl : ∀ a : List Char, charsLe a a = true := by
  intro a
  induction a with
  | nil => rfl
  | cons x xs ih => simpa [charsLe] using ih

theorem strLe_refl (a : String) : strLe a a = true := charsLe_refl a.data

theorem nodup_nameKeys (rows : List QRow) : (nameKeys rows).Nodup :=
  ((sortLe_perm strLe (dedupFirst [] (rows.filterMap nameKey))).nodup_iff).2
    (nodup_dedupFirst (rows.filterMap nameKey) [])

theorem mem_nameKeys (rows : List QRow) (k : String) :
    k ∈ nameKeys rows ↔ ∃ r ∈ rows, nameKey r = some k := by
  unfold nameKeys
  rw [(sortLe_perm strLe (dedupFirst [] (rows.filterMap nameKey))).mem_iff,
    mem_dedupFirst (rows.filterMap nameKey) [] k]
  simp [List.mem_filterMap]

theorem consolidateGroup_quantity_sum :
    ∀ g b, consolidateGroup g = some b →
      (b.map QRow.quantity).sum = (g.map QRow.quantity).sum := by
  intro g b h
  by_cases hl : (setsOf g).length > 1
  · cases g with
    | nil => simp [setsOf, dedupFirst] at hl
    | cons f t =>
      rcases hfn : f.notes with _ | n <;>
        rcases hix : idxmax (setSum (f :: t)) (sortLe strLe (setsOf (f :: t))) with _ | w <;>
          simp only [consolidateGroup, if_pos hl, hfn, hix, Option.some.injEq] at h <;>
            try exact absurd h (by simp)
      subst h
      simp [totalOf]
  · simp only [consolidateGroup, if_neg hl, Option.some.injEq] at h
    rw [h]

theorem consolidateGroup_nameKey :
    ∀ (rows : List QRow) (k : String) (b : List QRow),
      consolidateGroup (grpOf rows k) = some b → ∀ r ∈ b, nameKey r = some k := by
  intro rows k b h r hr
  have hmem : ∀ x ∈ grpOf rows k, nameKey x = some k := by
    intro x hx
    have := (List.mem_filter.1 hx).2
    simpa using this
  by_cases hl : (setsOf (grpOf rows k)).length > 1
  · rcases hg : grpOf rows k with _ | ⟨f, t⟩
    · rw [hg] at hl; simp [setsOf, dedupFirst] at hl
    · rw [hg] at h
      rcases hfn : f.notes with _ | n <;>
        rcases hix : idxmax (setSum (f :: t)) (sortLe strLe (setsOf (f :: t))) with _ | w <;>
          simp only [consolidateGroup, if_pos (hg ▸ hl), hfn, hix, Option.some.injEq] at h <;>
            try exact absurd h (by simp)
      subst h
      rcases List.mem_cons.1 hr with rfl | hr'
      · have hf : nameKey f = some k := hmem f (by rw [hg]; exact .head _)
        simpa [nameKey] using hf
      · cases hr'
  · simp only [consolidateGroup, if_neg hl, Option.some.injEq] at h
    exact hmem r (h ▸ hr)

theorem consolidateAll_keys :
    ∀ (ks : List String) (rows out : List QRow),
      consolidateAll rows ks = some out → ∀ r ∈ out, ∃ k ∈ ks, nameKey r = some k := by
  intro ks
  induction ks with
  | nil =>
    intro rows out h r hr
    simp only [consolidateAll, Option.some.injEq] at h
    rw [← h] at hr
    cases hr
  | cons k0 kt ih =>
    intro rows out h r hr
    rcases hb0 : consolidateGroup (grpOf rows k0) with _ | b0 <;>
      rcases hrest : consolidateAll rows kt with _ | rest <;>
        simp only [consolidateAll, hb0, hrest, Option.some.injEq] at h <;>
          try exact absurd h (by simp)
    rw [← h] at hr
    rcases List.mem_append.1 hr with hrb | hrr
    · exact ⟨k0, .head _, consolidateGroup_nameKey rows k0 b0 hb0 r hrb⟩
    · rcases ih rows rest hrest r hrr with ⟨k, hk, hkey⟩
      exact ⟨k, .tail _ hk, hkey⟩

theorem consolidateAll_filter :
    ∀ (ks : List String) (rows out : List QRow), ks.Nodup →
      consolidateAll rows ks = some out → ∀ k ∈ ks,
        ∃ b, consolidateGroup (grpOf rows k) = some b ∧
          (out.filter fun r => nameKey r == some k) = b := by
  intro ks
  induction ks with
  | nil => intro rows out _ _ k hk; cases hk
  | cons k0 kt ih =>
    intro rows out hnd h k hk
    rcases hb0 : consolidateGroup (grpOf rows k0) with _ | b0 <;>
      rcases hrest : consolidateAll rows kt with _ | rest <;>
        simp only [consolidateAll, hb0, hrest, Option.some.injEq] at h <;>
          try exact absurd h (by simp)
    rcases List.mem_cons.1 hk with rfl | hk'
    · refine ⟨b0, hb0, ?_⟩
      rw [← h, List.filter_append]
      have h1 : (b0.filter fun r => nameKey r == some k) = b0 := by
        rw [List.filter_eq_self]
        intro r hr
        simp [consolidateGroup_nameKey rows k b0 hb0 r hr]
      have h2 : (rest.filter fun r => nameKey r == some k) = [] := by
        rw [List.filter_eq_nil_iff]
        intro r hr hbeq
        rcases consolidateAll_keys kt rows rest hrest r hr with ⟨k', hk', hkey⟩
        have hkk : k' = k := by
          rw [hkey] at hbeq
          simpa using hbeq
        exact (List.nodup_cons.1 hnd).1 (hkk ▸ hk')
      rw [h1, h2, List.append_nil]
    · rcases ih rows rest (List.nodup_cons.1 hnd).2 hrest k hk' with ⟨b, hb, hfb⟩
      refine ⟨b, hb, ?_⟩
      rw [← h, List.filter_append]
      have h1 : (b0.filter fun r => nameKey r == some k) = [] := by
        rw [List.filter_eq_nil_iff]
        intro r hr hbeq
        have hkey := consolidateGroup_nameKey rows k0 b0 hb0 r hr
        have hkk : k0 = k := by
          rw [hkey] at hbeq
          simpa using hbeq
        exact (List.nodup_cons.1 hnd).1 (hkk ▸ hk')
      rw [h1, hfb, List.nil_append]

theorem consolidateAll_filter_not :
    ∀ (ks : List String) (rows out : List QRow) (k : String),
      consolidateAll rows ks = some out → k ∉ ks →
        (out.filter fun r => nameKey r == some k) = [] := by
  intro ks rows out k h hk
  rw [List.filter_eq_nil_iff]
  intro r hr hbeq
  rcases consolidateAll_keys ks rows out h r hr with ⟨k', hk', hkey⟩
  have : k' = k := by
    rw [hkey] at hbeq
    simpa using hbeq
  exact hk (this ▸ hk')

/-- C3: for every name, the total quantity over the Set Consolidator's
output rows carrying that (normalized) name equals the total quantity
over its input rows carrying that name; in particular the total for a
name never decreases.  (The hypothesis records that the run completed,
i.e. line 31 did not raise on a `NaN` notes cell.) -/
theorem c3_consolidator_preserves_name_totals (rows out : List QRow)
    (h : consolidate_sets rows = some out) (k : String) :
    ((out.filter fun r => nameKey r == some k).map QRow.quantity).sum
        = ((grpOf rows k).map QRow.quantity).sum ∧
      ((grpOf rows k).map QRow.quantity).sum
        ≤ ((out.filter fun r => nameKey r == some k).map QRow.quantity).sum := by
  have heq : ((out.filter fun r => nameKey r == some k).map QRow.quantity).sum
      = ((grpOf rows k).map QRow.quantity).sum := by
    by_cases hk : k ∈ nameKeys rows
    · rcases consolidateAll_filter (nameKeys rows) rows out (nodup_nameKeys rows) h k hk
        with ⟨b, hb, hfb⟩
      rw [hfb]
      exact consolidateGroup_quantity_sum (grpOf rows k) b hb
    · have h1 := consolidateAll_filter_not (nameKeys rows) rows out k h hk
      have h2 : grpOf rows k = [] := by
        rw [grpOf, List.filter_eq_nil_iff]
        intro r hr hbeq
        refine hk ((mem_nameKeys rows k).2 ⟨r, hr, ?_⟩)
        simpa using hbeq
      rw [h1, h2]
  exact ⟨heq, le_of_eq heq.symm⟩

theorem c3_consolidator_preserves_name_totals_witness :
    consolidate_sets
        [⟨3, some "x", some "b", some "", some "", some "", some "", some ""⟩,
         ⟨3, some "x", some "a", some "", some "", some "", some "", some ""⟩]
      = some [⟨6, some "x", some "a", some "", some "", some "", some "",
               some "Sets consolidated"⟩] ∧
    ((([(⟨6, some "x", some "a", some "", some "", some "", some "",
          some "Sets consolidated"⟩ : QRow)].filter
            fun r => nameKey r == some "x").map QRow.quantity).sum
        = ((grpOf
            [⟨3, some "x", some "b", some "", some "", some "", some "", some ""⟩,
             ⟨3, some "x", some "a", some "", some "", some "", some "", some ""⟩]
            "x").map QRow.quantity).sum) :=
  ⟨by decide,
   (c3_consolidator_preserves_name_totals
      [⟨3, some "x", some "b", some "", some "", some "", some "", some ""⟩,
       ⟨3, some "x", some "a", some "", some "", some "", some "", some ""⟩]
      [⟨6, some "x", some "a", some "", some "", some "", some "",
        some "Sets consolidated"⟩]
      (by decide) "x").1⟩

theorem idxmaxGo_mem (f : String → Int) :
    ∀ (l : List String) (b : String) (v : Int), idxmaxGo f b v l ∈ b :: l := by
  intro l
  induction l with
  | nil => intro b v; exact .head _
  | cons y ys ih =>
    intro b v
    simp only [idxmaxGo]
    by_cases h : f y > v
    · rw [if_pos h]
      rcases List.mem_cons.1 (ih y (f y)) with h1 | h1
      · rw [h1]; exact .tail _ (.head _)
      · exact .tail _ (.tail _ h1)
    · rw [if_neg h]
      rcases List.mem_cons.1 (ih b v) with h1 | h1
      · rw [h1]; exact .head _
      · exact .tail _ (.tail _ h1)

theorem idxmaxGo_max (f : String → Int) :
    ∀ (l : List String) (b : String), ∀ z ∈ b :: l, f z ≤ f (idxmaxGo f b (f b) l) := by
  intro l
  induction l with
  | nil =>
    intro b z hz
    rcases List.mem_cons.1 hz with h1 | h1
    · exact le_of_eq (congrArg f h1)
    · cases h1
  | cons y ys ih =>
    intro b z hz
    simp only [idxmaxGo]
    by_cases h : f y > f b
    · rw [if_pos h]
      rcases List.mem_cons.1 hz with h1 | hz'
      · rw [h1]
        exact (le_of_lt h).trans (ih y y (.head _))
      · exact ih y z hz'
    · rw [if_neg h]
      rcases List.mem_cons.1 hz with h1 | hz'
      · rw [h1]
        exact ih b b (.head _)
      · rcases List.mem_cons.1 hz' with h1 | hz''
        · rw [h1]
          exact (not_lt.1 h).trans (ih b b (.head _))
        · exact ih b z (.tail _ hz'')

theorem idxmaxGo_first (f : String → Int) :
    ∀ (l : List String) (b : String),
      (b :: l).Pairwise (fun a c => strLe a c = true) →
      ∀ z ∈ b :: l, f z = f (idxmaxGo f b (f b) l) →
        strLe (idxmaxGo f b (f b) l) z = true := by
  intro l
  induction l with
  | nil =>
    intro b _ z hz _
    rcases List.mem_cons.1 hz with rfl | h
    · exact strLe_refl z
    · cases h
  | cons y ys ih =>
    intro b hp z hz hfz
    simp only [idxmaxGo] at hfz ⊢
    by_cases h : f y > f b
    · rw [if_pos h] at hfz ⊢
      have hp' := (List.pairwise_cons.1 hp).2
      rcases List.mem_cons.1 hz with h1 | hz'
      · have hy : f y ≤ f (idxmaxGo f y (f y) ys) := idxmaxGo_max f ys y y (.head _)
        rw [h1] at hfz
        exact absurd hfz (ne_of_lt (lt_of_lt_of_le h hy))
      · exact ih y hp' z hz' hfz
    · rw [if_neg h] at hfz ⊢
      have hble := (List.pairwise_cons.1 hp).1
      have hpy := (List.pairwise_cons.1 hp).2
      have hpbys : (b :: ys).Pairwise fun a c => strLe a c = true :=
        List.pairwise_cons.2
          ⟨fun w hw => hble w (.tail _ hw), (List.pairwise_cons.1 hpy).2⟩
      rcases List.mem_cons.1 hz with h1 | hz'
      · rw [h1] at hfz ⊢
        exact ih b hpbys b (.head _) hfz
      · rcases List.mem_cons.1 hz' with h1 | hz''
        · have hzb : f z ≤ f b := by
            rw [h1]
            exact not_lt.1 h
          have hle1 : f (idxmaxGo f b (f b) ys) ≤ f b := hfz ▸ hzb
          have hfb : f b = f (idxmaxGo f b (f b) ys) :=
            le_antisymm (idxmaxGo_max f ys b b (.head _)) hle1
          have hres : strLe (idxmaxGo f b (f b) ys) b = true :=
            ih b hpbys b (.head _) hfb
          have hbz : strLe b z = true := by
            rw [h1]
            exact hble y (.head _)
          exact strLe_trans hres hbz
        · exact ih b hpbys z (.tail _ hz'') hfz

theorem idxmax_spec (f : String → Int) (l : List String) (w : String)
    (hs : l.Pairwise fun a c => strLe a c = true) (h : idxmax f l = some w) :
    w ∈ l ∧ (∀ s ∈ l, f s ≤ f w) ∧ ∀ s ∈ l, f s = f w → strLe w s = true := by
  cases l with
  | nil => simp [idxmax] at h
  | cons x xs =>
    simp only [idxmax, Option.some.injEq] at h
    subst h
    exact ⟨idxmaxGo_mem f xs x (f x),
      fun s hs' => idxmaxGo_max f xs x s hs',
      fun s hs' hf => idxmaxGo_first f xs x hs s hs' hf⟩

/-- C2 counterexample to the tie-break rule: for name `"x"` the sets
`"b"` (first encountered, quantity 3) and `"a"` (second, quantity 3)
tie, yet the emitted row carries set `"a"` — the lexicographically
smallest set name, not the first encountered in insertion order. -/
theorem c2_counterexample_tiebreak :
    consolidate_sets
        [⟨3, some "x", some "b", some "", some "", some "", some "", some ""⟩,
         ⟨3, some "x", some "a", some "", some "", some "", some "", some ""⟩]
      = some [⟨6, some "x", some "a", some "", some "", some "", some "",
               some "Sets consolidated"⟩] ∧
    setSum
        [⟨3, some "x", some "b", some "", some "", some "", some "", some ""⟩,
         ⟨3, some "x", some "a", some "", some "", some "", some "", some ""⟩] "b"
      = setSum
        [⟨3, some "x", some "b", some "", some "", some "", some "", some ""⟩,
         ⟨3, some "x", some "a", some "", some "", some "", some "", some ""⟩] "a" ∧
    ([⟨3, some "x", some "b", some "", some "", some "", some "", some ""⟩,
      (⟨3, some "x", some "a", some "", some "", some "", some "", some ""⟩ : QRow)].map
        QRow.setname).head? = some (some "b") ∧
    ("a" : String) ≠ "b" := by decide

/-- C2 (amended): for every name group spanning more than one set_name,
a single consolidated row is emitted whose quantity is the total over
the entire name group and whose set_name has the maximum summed
quantity within the group, with ties broken in favor of the
lexicographically smallest set_name (the pandas group order), not the
first encountered in insertion order. -/
theorem c2_amended_set_consolidation (rows out : List QRow) (k : String)
    (h : consolidate_sets rows = some out)
    (hm : (setsOf (grpOf rows k)).length > 1) :
    ∃ c, (out.filter fun r => nameKey r == some k) = [c] ∧
      c.quantity = totalOf (grpOf rows k) ∧
      ∃ w, c.setname = some w ∧ w ∈ setsOf (grpOf rows k) ∧
        (∀ s ∈ setsOf (grpOf rows k), setSum (grpOf rows k) s ≤ setSum (grpOf rows k) w) ∧
        (∀ s ∈ setsOf (grpOf rows k),
          setSum (grpOf rows k) s = setSum (grpOf rows k) w → strLe w s = true) := by
  have hk : k ∈ nameKeys rows := by
    rcases hg : grpOf rows k with _ | ⟨f, t⟩
    · rw [hg] at hm; simp [setsOf, dedupFirst] at hm
    · have hf : f ∈ grpOf rows k := by rw [hg]; exact .head _
      have hmf := List.mem_filter.1 hf
      exact (mem_nameKeys rows k).2 ⟨f, hmf.1, by simpa using hmf.2⟩
  rcases consolidateAll_filter (nameKeys rows) rows out (nodup_nameKeys rows) h k hk
    with ⟨b, hb, hfb⟩
  rcases hg : grpOf rows k with _ | ⟨f, t⟩
  · rw [hg] at hm; simp [setsOf, dedupFirst] at hm
  · rw [hg] at hb hm
    rcases hfn : f.notes with _ | n <;>
      rcases hix : idxmax (setSum (f :: t)) (sortLe strLe (setsOf (f :: t))) with _ | w <;>
        simp only [consolidateGroup, if_pos hm, hfn, hix, Option.some.injEq] at hb <;>
          try exact absurd hb (by simp)
    subst hb
    have hsorted : (sortLe strLe (setsOf (f :: t))).Pairwise fun a c => strLe a c = true :=
      sorted_sortLe strLe strLe_total (fun _ _ _ h1 h2 => strLe_trans h1 h2) (setsOf (f :: t))
    have hspec := idxmax_spec (setSum (f :: t)) (sortLe strLe (setsOf (f :: t))) w hsorted hix
    have hmemiff : ∀ s : String,
        s ∈ sortLe strLe (setsOf (f :: t)) ↔ s ∈ setsOf (f :: t) :=
      fun s => (sortLe_perm strLe (setsOf (f :: t))).mem_iff
    refine ⟨_, hfb, rfl, w, rfl, (hmemiff w).1 hspec.1, ?_, ?_⟩
    · intro s hs
      exact hspec.2.1 s ((hmemiff s).2 hs)
    · intro s hs hsum
      exact hspec.2.2 s ((hmemiff s).2 hs) hsum

theorem c2_amended_set_consolidation_witness :
    consolidate_sets
        [⟨2, some "y", some "Beta", some "", some "", some "", some "", some ""⟩,
         ⟨3, some "y", some "Alpha", some "", some "", some "", some "", some ""⟩]
      = some [⟨5, some "y", some "Alpha", some "", some "", some "", some "",
               some "Sets consolidated"⟩] ∧
    (setsOf (grpOf
        [⟨2, some "y", some "Beta", some "", some "", some "", some "", some ""⟩,
         ⟨3, some "y", some "Alpha", some "", some "", some "", some "", some ""⟩]
        "y")).length > 1 ∧
    ∃ c, (([(⟨5, some "y", some "Alpha", some "", some "", some "", some "",
              some "Sets consolidated"⟩ : QRow)].filter
            fun r => nameKey r == some "y") = [c]) ∧
      c.quantity = totalOf (grpOf
        [⟨2, some "y", some "Beta", some "", some "", some "", some "", some ""⟩,
         ⟨3, some "y", some "Alpha", some "", some "", some "", some "", some ""⟩] "y") ∧
      ∃ w, c.setname = some w ∧
        w ∈ setsOf (grpOf
          [⟨2, some "y", some "Beta", some "", some "", some "", some "", some ""⟩,
           ⟨3, some "y", some "Alpha", some "", some "", some "", some "", some ""⟩] "y") ∧
        (∀ s ∈ setsOf (grpOf
            [⟨2, some "y", some "Beta", some "", some "", some "", some "", some ""⟩,
             ⟨3, some "y", some "Alpha", some "", some "", some "", some "", some ""⟩] "y"),
          setSum (grpOf
            [⟨2, some "y", some "Beta", some "", some "", some "", some "", some ""⟩,
             ⟨3, some "y", some "Alpha", some "", some "", some "", some "", some ""⟩] "y") s
            ≤ setSum (grpOf
              [⟨2, some "y", some "Beta", some "", some "", some "", some "", some ""⟩,
               ⟨3, some "y", some "Alpha", some "", some "", some "", some "", some ""⟩] "y") w) ∧
        (∀ s ∈ setsOf (grpOf
            [⟨2, some "y", some "Beta", some "", some "", some "", some "", some ""⟩,
             ⟨3, some "y", some "Alpha", some "", some "", some "", some "", some ""⟩] "y"),
          setSum (grpOf
            [⟨2, some "y", some "Beta", some "", some "", some "", some "", some ""⟩,
             ⟨3, some "y", some "Alpha", some "", some "", some "", some "", some ""⟩] "y") s
            = setSum (grpOf
              [⟨2, some "y", some "Beta", some "", some "", some "", some "", some ""⟩,
               ⟨3, some "y", some "Alpha", some "", some "", some "", some "", some ""⟩] "y") w →
          strLe w s = true) :=
  ⟨by decide, by decide,
   c2_amended_set_consolidation
     [⟨2, some "y", some "Beta", some "", some "", some "", some "", some ""⟩,
      ⟨3, some "y", some "Alpha", some "", some "", some "", some "", some ""⟩]
     [⟨5, some "y", some "Alpha", some "", some "", some "", some "",
       some "Sets consolidated"⟩]
     "y" (by decide) (by decide)⟩

/-- C4 counterexample: a transport exception during the set-directory
request propagates out of `get_scryfall_id` (there is no try/except in
lines 73–92), rather than yielding the empty identifier. -/
theorem c4_counterexample_network_raises :
    get_scryfall_id ⟨.error .connectionError, fun _ _ => .error .connectionError⟩
        "Lightning Bolt" "Alpha" = .error .connectionError ∧
      (Except.error NetErr.connectionError : Except NetErr String) ≠ .ok "" :=
  ⟨rfl, fun hcontra => Except.noConfusion hcontra⟩

/-- C4 (amended): a non-success (non-200) response at either the
set-directory or the exact-card lookup yields the empty identifier for
the row, with a single request to each endpoint and no retry; but a
network failure (an exception from the HTTP or JSON layer) during
either request propagates out of the strategy instead of yielding the
empty identifier. -/
theorem c4_amended_scryfall_failure_behavior :
    (∀ (env : ScryfallEnv) (n s : String) (st : Nat) (data : List SetInfo),
        env.setsResponse = .ok (st, data) → st ≠ 200 →
        get_scryfall_id env n s = .ok "") ∧
    (∀ (env : ScryfallEnv) (n s : String) (e : NetErr),
        env.setsResponse = .error e → get_scryfall_id env n s = .error e) ∧
    (∀ (env : ScryfallEnv) (n s : String) (sets : List (String × String))
        (code : String) (st : Nat) (idf : Option String),
        fetch_scryfall_sets env = .ok sets →
        dictGetLast sets (strLower (strStrip s)) = some code → code ≠ "" →
        env.cardResponse (strStrip n) code = .ok (st, idf) → st ≠ 200 →
        get_scryfall_id env n s = .ok "") ∧
    (∀ (env : ScryfallEnv) (n s : String) (sets : List (String × String))
        (code : String) (e : NetErr),
        fetch_scryfall_sets env = .ok sets →
        dictGetLast sets (strLower (strStrip s)) = some code → code ≠ "" →
        env.cardResponse (strStrip n) code = .error e →
        get_scryfall_id env n s = .error e) := by
  refine ⟨?_, ?_, ?_, ?_⟩
  · intro env n s st data hin hst
    rcases env with ⟨sr, cr⟩
    cases hin
    simp [get_scryfall_id, fetch_scryfall_sets, hst, dictGetLast]
  · intro env n s e hin
    rcases env with ⟨sr, cr⟩
    cases hin
    simp [get_scryfall_id, fetch_scryfall_sets]
  · intro env n s sets code st idf hf hdg hcode hcard hst
    simp [get_scryfall_id, hf, hdg, hcode, hcard, hst]
  · intro env n s sets code e hf hdg hcode hcard
    simp [get_scryfall_id, hf, hdg, hcode, hcard]

theorem c4_amended_scryfall_failure_behavior_witness :
    get_scryfall_id ⟨.ok (404, []), fun _ _ => .ok (404, none)⟩ "Bolt" "Alpha" = .ok "" ∧
    get_scryfall_id ⟨.error .parseError, fun _ _ => .ok (200, some "id1")⟩ "Bolt" "Alpha"
        = .error .parseError ∧
    get_scryfall_id ⟨.ok (200, [⟨"Alpha", "lea"⟩]), fun _ _ => .ok (503, none)⟩
        "Bolt" "Alpha" = .ok "" ∧
    get_scryfall_id ⟨.ok (200, [⟨"Alpha", "lea"⟩]), fun _ _ => .error .connectionError⟩
        "Bolt" "Alpha" = .error .connectionError :=
  ⟨c4_amended_scryfall_failure_behavior.1
      ⟨.ok (404, []), fun _ _ => .ok (404, none)⟩ "Bolt" "Alpha" 404 [] rfl (by decide),
   c4_amended_scryfall_failure_behavior.2.1
      ⟨.error .parseError, fun _ _ => .ok (200, some "id1")⟩ "Bolt" "Alpha" .parseError rfl,
   c4_amended_scryfall_failure_behavior.2.2.1
      ⟨.ok (200, [⟨"Alpha", "lea"⟩]), fun _ _ => .ok (503, none)⟩ "Bolt" "Alpha"
      [("alpha", "lea")] "lea" 503 none rfl (by decide) (by decide) rfl (by decide),
   c4_amended_scryfall_failure_behavior.2.2.2
      ⟨.ok (200, [⟨"Alpha", "lea"⟩]), fun _ _ => .error .connectionError⟩ "Bolt" "Alpha"
      [("alpha", "lea")] "lea" .connectionError rfl (by decide) (by decide) rfl⟩

/-- C5 counterexample: a row whose CONDITION is the empty string (as
produced, e.g., for a TopDecked upload lacking the CONDITION column)
keeps the empty string in the output instead of the default `"NM"`. -/
theorem c5_counterexample_empty_condition :
    (convert_to_tcgpowertools_format
        [⟨1, some "Bolt", some "", some "", some "", some "", some "English", some ""⟩]
        "NM" "English" none).map OutRow.condition = [""] ∧ ("" : String) ≠ "NM" := by
  decide

/-- C5 (amended): the output condition column equals the row's
CONDITION with only missing (`NaN`) cells replaced by the configured
default — `fillna` does not replace a present empty string, which
therefore reaches the output as an empty condition. -/
theorem c5_amended_condition_fillna (rows : List QRow) (dc dl : String)
    (fetch : Option (QRow → String)) :
    (convert_to_tcgpowertools_format rows dc dl fetch).map OutRow.condition
      = rows.map fun r => r.condition.getD dc := by
  unfold convert_to_tcgpowertools_format
  rw [List.map_map]
  rfl

/-- C6 counterexample: a row with a missing set_name and set_code
`"LEA"` yields a missing `set` field — the formatter never falls back
to set_code. -/
theorem c6_counterexample_setcode_ignored :
    (convert_to_tcgpowertools_format
        [⟨1, some "Bolt", none, some "LEA", none, none, none, none⟩]
        "NM" "English" none).map OutRow.set = [none] ∧ (none : Cell) ≠ some "LEA" := by
  decide

/-- C6 (amended): the output `set` column is an unconditional copy of
the row's set_name (line 139); set_code is never consulted, so a
missing or empty set_name is emitted as-is. -/
theorem c6_amended_set_is_setname (rows : List QRow) (dc dl : String)
    (fetch : Option (QRow → String)) :
    (convert_to_tcgpowertools_format rows dc dl fetch).map OutRow.set
      = rows.map QRow.setname := by
  unfold convert_to_tcgpowertools_format
  rw [List.map_map]
  rfl

/-- C7 counterexample: even with the empty catalog, a row whose NAME
cell is missing (`NaN`) raises `AttributeError` at `name.strip()`
(line 62) instead of resolving to the empty identifier. -/
theorem c7_counterexample_nan_name_raises :
    get_cardmarket_id none (some "Alpha") (build_id_lookup_table [])
        = .error .attributeError ∧
      (Except.error PyErr.attributeError : Except PyErr String) ≠ .ok "" :=
  ⟨rfl, fun hcontra => Except.noConfusion hcontra⟩

/-- C7 (amended): every load failure — I/O, parse, a dict without a
`products` array, or a bare-array document (whose `.get` raises inside
the `try`) — degrades to the empty catalog, and with the empty catalog
the resolver returns the empty identifier without raising for every
row whose NAME is a present string; a missing (`NaN`) NAME raises
`AttributeError` regardless of the catalog. -/
theorem c7_amended_empty_catalog_resolves_empty :
    (∀ e : LoadErr, load_cardmarket_mapping (.error e) = []) ∧
    load_cardmarket_mapping (.ok (.obj none)) = [] ∧
    (∀ items, load_cardmarket_mapping (.ok (.arr items)) = []) ∧
    ∀ (n : String) (s : Cell),
      get_cardmarket_id (some n) s (build_id_lookup_table []) = .ok "" :=
  ⟨fun _ => rfl, rfl, fun _ => rfl, fun _ _ => rfl⟩

/-- C10: in the ImportErrors branch the pipeline first drops the
`error` column and then unconditionally renames the first remaining
column to `idProduct` (lines 172–175); consequently an input whose
first column is `quantity` or `name` — with no other column whose
stripped-lowercased header equals it — fails `convert_error_format`'s
required-column check with the missing-required-column error, even
though that column exists in the input. -/
theorem c10_importerrors_first_column_shadowed
    (c0 : String × List Cell) (rest : Table)
    (h0 : c0.1 = "quantity" ∨ c0.1 = "name")
    (hr : ∀ c ∈ rest, strLower (strStrip c.1) ≠ c0.1) :
    ∃ col, (col = "quantity" ∨ col = "name") ∧
      errorsPipeline (c0 :: rest) = .error (missingMsg col) := by
  rcases c0 with ⟨n0, cs0⟩
  simp only at h0 hr
  have hc0err : n0 ≠ "error" := by
    rcases h0 with h | h <;> rw [h] <;> decide
  have hdrop : dropColumns ["error"] ((n0, cs0) :: rest)
      = (n0, cs0) :: dropColumns ["error"] rest := by
    simp [dropColumns, List.filter_cons, hc0err]
  have hRsub : ∀ c ∈ dropColumns ["error"] rest, c ∈ rest :=
    fun c hc => (List.mem_filter.1 hc).1
  have h0lower : strLower (strStrip n0) = n0 := by
    rcases h0 with h | h <;> rw [h] <;> decide
  have hRne : ∀ c ∈ dropColumns ["error"] rest, c.1 ≠ n0 := by
    intro c hc hcc
    exact hr c (hRsub c hc) (by rw [hcc, h0lower])
  have hmapR : (dropColumns ["error"] rest).map
      (fun c => if c.1 = n0 then ("idProduct", c.2) else c) = dropColumns ["error"] rest := by
    have h1 : ∀ c ∈ dropColumns ["error"] rest,
        (if c.1 = n0 then (("idProduct", c.2) : String × List Cell) else c) = c :=
      fun c hc => if_neg (hRne c hc)
    rw [List.map_congr_left h1]
    simp
  have hrename : renameFirstToIdProduct ((n0, cs0) :: dropColumns ["error"] rest)
      = .ok (("idProduct", cs0) :: dropColumns ["error"] rest) := by
    show Except.ok (((n0, cs0) :: dropColumns ["error"] rest).map
        fun c => if c.1 = n0 then ("idProduct", c.2) else c)
      = .ok (("idProduct", cs0) :: dropColumns ["error"] rest)
    rw [List.map_cons, hmapR]
    simp
  have hl2 : lowHeaders (("idProduct", cs0) :: dropColumns ["error"] rest)
      = "idproduct" :: (dropColumns ["error"] rest).map fun c => strLower (strStrip c.1) := by
    simp [lowHeaders, lowerStripHeaders, List.map_map]
    decide
  have hn0mem : n0 ∉ lowHeaders (("idProduct", cs0) :: dropColumns ["error"] rest) := by
    intro hmem
    rw [hl2] at hmem
    rcases List.mem_cons.1 hmem with h | h
    · rcases h0 with h' | h' <;> rw [h'] at h <;> exact absurd h (by decide)
    · rcases List.mem_map.1 h with ⟨c, hc, hceq⟩
      exact hr c (hRsub c hc) hceq
  by_cases hq : "quantity" ∈ lowHeaders (("idProduct", cs0) :: dropColumns ["error"] rest)
  · rcases h0 with h' | h'
    · rw [h'] at hn0mem
      exact absurd hq hn0mem
    · refine ⟨"name", Or.inr rfl, ?_⟩
      rw [h'] at hn0mem
      unfold errorsPipeline
      rw [hdrop, hrename]
      simp [convert_error_format, hq, hn0mem]
  · refine ⟨"quantity", Or.inl rfl, ?_⟩
    unfold errorsPipeline
    rw [hdrop, hrename]
    simp [convert_error_format, hq]

theorem c10_importerrors_first_column_shadowed_witness :
    ∃ col, (col = "quantity" ∨ col = "name") ∧
      errorsPipeline [("quantity", [some "1"]), ("name", [some "Bolt"])]
        = .error (missingMsg col) :=
  c10_importerrors_first_column_shadowed ("quantity", [some "1"]) [("name", [some "Bolt"])]
    (Or.inl rfl) (by decide)
